import Mathlib

/-!
Verification of the RASSINE spectrum import & calibration core
(`rassine/cli/preprocess_import.py`).

Numeric values (wavelengths, fluxes, header scalars) are modelled as
rationals `ℚ`, except the secular-acceleration formula which involves a
square root and π and is modelled over `ℝ`.  Arrays are `List`s.  A
fallible operation (a numpy reduction over an empty array, a missing
table row, an unsupported instrument) is an `Except String` value whose
`error` case models the raised Python exception.  The driver `run` is
modelled as a pure function of the already-parsed input table and of the
current content of the output-table file; an `Except.error` result means
the invocation aborted with no table append performed.
-/

namespace Rassine

/-- Sentinel constant `absurd_minus_99_9` from `rassine.data` (not part of
the imported sources; the spec fixes it as the reserved constant −99.9 used
for both hole bounds when no detector gap is found). -/
def absurd_minus_99_9 : ℚ := -99.9

/-- Indices of the samples with exactly zero flux:
`null_flux = np.where(flux == 0)[0]` in `find_hole`.  The resulting index
list is in increasing order. -/
def null_flux (flux : List ℚ) : List ℕ :=
  (List.range flux.length).filter (fun i => flux.getD i 0 = 0)

/-- Helper for `group_runs`: extends the current run `(start, last, len)`
with the remaining indices, closing it whenever the next index is not the
successor of the previous one. -/
def group_runs_aux (start last len : ℕ) : List ℕ → List (ℕ × ℕ × ℕ)
  | [] => [(start, last, len)]
  | x :: xs =>
    if x = last + 1 then group_runs_aux start x (len + 1) xs
    else (start, last, len) :: group_runs_aux x x 1 xs

/-- Modelled from the spec: the `grouping` helper from `rassine.analysis`
(not among the imported sources).  Per the spec's Gap Detector section, the
zero-flux indices are grouped into maximal runs of consecutive integers —
runs split at any gap greater than the unit step — and each run is reported
as `(first index, last index, number of samples)`. -/
def group_runs : List ℕ → List (ℕ × ℕ × ℕ)
  | [] => []
  | x :: xs => group_runs_aux x x 1 xs

/-- The run selected by `mask[mask[:, 2].argmax()]`: the first run whose
sample count is maximal (`np.argmax` returns the first maximising index);
`none` when there are no runs. -/
def select_longest : List (ℕ × ℕ × ℕ) → Option (ℕ × ℕ × ℕ)
  | [] => none
  | r :: rs => some (rs.foldl (fun best s => if best.2.2 < s.2.2 then s else best) r)

/-- `find_hole` from `preprocess_import.py`: locate the inter-CCD gap.  Both
bounds start at the sentinel; when zero-flux samples exist, the longest run
of consecutive zero-flux indices is selected and, if it exceeds 1000
samples, its wavelength bounds are reported. -/
def find_hole (wave flux : List ℚ) : ℚ × ℚ :=
  match select_longest (group_runs (null_flux flux)) with
  | none => (absurd_minus_99_9, absurd_minus_99_9)
  | some (s, e, len) =>
    if 1000 < len then (wave.getD s 0, wave.getD e 0)
    else (absurd_minus_99_9, absurd_minus_99_9)

theorem foldl_best_mem (f : ℕ × ℕ × ℕ → ℕ × ℕ × ℕ → ℕ × ℕ × ℕ)
    (hf : ∀ b s, f b s = b ∨ f b s = s) (x : ℕ × ℕ × ℕ) (xs : List (ℕ × ℕ × ℕ)) :
    xs.foldl f x ∈ x :: xs := by
  induction xs generalizing x with
  | nil => simp
  | cons y ys ih =>
    rw [List.foldl_cons]
    have h := ih (f x y)
    rcases List.mem_cons.mp h with h1 | h1
    · rw [h1]
      rcases hf x y with h2 | h2 <;> rw [h2] <;> simp
    · exact List.mem_cons_of_mem _ (List.mem_cons_of_mem _ h1)

theorem select_longest_mem {l : List (ℕ × ℕ × ℕ)} {r : ℕ × ℕ × ℕ}
    (h : select_longest l = some r) : r ∈ l := by
  cases l with
  | nil => simp [select_longest] at h
  | cons x xs =>
    simp only [select_longest, Option.some.injEq] at h
    subst h
    exact foldl_best_mem _ (fun b s => by by_cases hb : b.2.2 < s.2.2 <;> simp [hb]) x xs

/-- C1: for equal-length wave and flux arrays, `find_hole` returns the
sentinel pair whenever no maximal run of consecutive zero-flux indices has
more than 1000 samples (in particular when there is no zero-flux sample at
all, `group_runs (null_flux flux)` being empty); and whenever the selected
longest run `(s, e, len)` has more than 1000 samples it returns
`(wave[s], wave[e])` for that run. -/
theorem find_hole_spec (wave flux : List ℚ) (_hlen : wave.length = flux.length) :
    ((∀ r ∈ group_runs (null_flux flux), r.2.2 ≤ 1000) →
      find_hole wave flux = (absurd_minus_99_9, absurd_minus_99_9)) ∧
    (∀ s e len, select_longest (group_runs (null_flux flux)) = some (s, e, len) →
      1000 < len → find_hole wave flux = (wave.getD s 0, wave.getD e 0)) := by
  constructor
  · intro hall
    unfold find_hole
    cases hsel : select_longest (group_runs (null_flux flux)) with
    | none => rfl
    | some r =>
      obtain ⟨s, e, len⟩ := r
      have hmem := select_longest_mem hsel
      have hle : len ≤ 1000 := hall _ hmem
      simp [Nat.not_lt.mpr hle]
  · intro s e len hsel hgt
    unfold find_hole
    rw [hsel]
    simp [hgt]

theorem find_hole_spec_witness :
    find_hole [1, 2, 3] [1, 0, 1] = (absurd_minus_99_9, absurd_minus_99_9) :=
  (find_hole_spec [1, 2, 3] [1, 0, 1] (by decide)).1 (by decide)

/-- `np.min` over a list: errors on an empty array exactly as the numpy
reduction does. -/
def np_min {α : Type} [Min α] (l : List α) : Except String α :=
  match l.min? with
  | none => Except.error "zero-size array to reduction operation minimum which has no identity"
  | some m => Except.ok m

/-- `np.max` over a list: errors on an empty array exactly as the numpy
reduction does. -/
def np_max {α : Type} [Max α] (l : List α) : Except String α :=
  match l.max? with
  | none => Except.error "zero-size array to reduction operation maximum which has no identity"
  | some m => Except.ok m

/-- The index set `np.arange(len(spectre))[spectre > 0]`: indices of the
samples with strictly positive flux, in increasing order. -/
def positive_indices (spectre : List ℚ) : List ℕ :=
  (List.range spectre.length).filter (fun i => 0 < spectre.getD i 0)

/-- Python slice `l[b : e + 1]`. -/
def np_slice {α : Type} (l : List α) (b e : ℕ) : List α :=
  (l.drop b).take (e + 1 - b)

/-- Lines 233–238 of `preprocess_fits_harps_coraline_harpn`:
`begin = np.min(np.arange(len(spectre))[spectre > 0])`,
`end = np.max(...)`, trim `grid` and `spectre` to `[begin : end + 1]`, then
`wave_min = np.min(grid)` and `wave_max = np.max(grid)` on the trimmed grid.
Returns the trimmed grid, the trimmed flux, and the two bounds. -/
def trim_and_bounds (grid spectre : List ℚ) :
    Except String (List ℚ × List ℚ × ℚ × ℚ) := do
  let b ← np_min (positive_indices spectre)
  let e ← np_max (positive_indices spectre)
  let grid2 := np_slice grid b e
  let spectre2 := np_slice spectre b e
  let wmin ← np_min grid2
  let wmax ← np_max grid2
  pure (grid2, spectre2, wmin, wmax)

/-- C4: an observation whose flux has no strictly positive sample makes the
trim step raise (the numpy reduction over the empty index array has no
identity): preprocessing fails loudly instead of producing an empty or
reversed spectrum. -/
theorem trim_and_bounds_all_nonpositive (grid spectre : List ℚ)
    (h : ∀ x ∈ spectre, x ≤ 0) :
    trim_and_bounds grid spectre =
      Except.error "zero-size array to reduction operation minimum which has no identity" := by
  have hnil : positive_indices spectre = [] := by
    refine List.filter_eq_nil_iff.mpr ?_
    intro i hi
    have hilt : i < spectre.length := List.mem_range.mp hi
    have hmem : spectre.getD i 0 ∈ spectre := by
      rw [List.getD_eq_getElem spectre 0 hilt]
      exact List.getElem_mem hilt
    simp only [decide_eq_true_eq]
    exact not_lt.mpr (h _ hmem)
  simp [trim_and_bounds, hnil, np_min, Bind.bind, Except.bind]

theorem min?_isSome_of_ne_nil {α : Type} [Min α] {l : List α} (h : l ≠ []) :
    ∃ m, l.min? = some m := by
  cases hm : l.min? with
  | none => exact absurd (List.min?_eq_none_iff.mp hm) h
  | some m => exact ⟨m, rfl⟩

theorem max?_isSome_of_ne_nil {α : Type} [Max α] {l : List α} (h : l ≠ []) :
    ∃ m, l.max? = some m := by
  cases hm : l.max? with
  | none => exact absurd (List.max?_eq_none_iff.mp hm) h
  | some m => exact ⟨m, rfl⟩

theorem min?_spec {α : Type} [LinearOrder α] {l : List α} {m : α}
    (h : l.min? = some m) : m ∈ l ∧ ∀ x ∈ l, m ≤ x :=
  ⟨List.min?_mem (fun a b => min_choice a b) h,
   fun x hx => (List.le_min?_iff (fun _ _ _ => le_min_iff) h).1 (le_refl m) x hx⟩

theorem max?_spec {α : Type} [LinearOrder α] {l : List α} {m : α}
    (h : l.max? = some m) : m ∈ l ∧ ∀ x ∈ l, x ≤ m :=
  ⟨List.max?_mem (fun a b => max_choice a b) h,
   fun x hx => (List.max?_le_iff (fun _ _ _ => max_le_iff) h).1 (le_refl m) x hx⟩

theorem mem_positive_indices {spectre : List ℚ} {i : ℕ} :
    i ∈ positive_indices spectre ↔ i < spectre.length ∧ 0 < spectre.getD i 0 := by
  simp [positive_indices, List.mem_filter, List.mem_range]

/-- C5: for an observation with at least one strictly positive flux sample
on an equal-length grid, the trim step succeeds, the spectrum is cut to the
inclusive index range between the first and last strictly-positive-flux
samples `b` and `e`, and the emitted bounds are exactly the minimum and
maximum of the trimmed grid, whence `wave_min ≤ wave_max`. -/
theorem trim_and_bounds_spec (grid spectre : List ℚ)
    (hlen : grid.length = spectre.length)
    (hpos : ∃ i, i < spectre.length ∧ 0 < spectre.getD i 0) :
    ∃ b e wmin wmax,
      trim_and_bounds grid spectre =
        Except.ok (np_slice grid b e, np_slice spectre b e, wmin, wmax) ∧
      (0 < spectre.getD b 0 ∧ ∀ j, j < b → ¬ 0 < spectre.getD j 0) ∧
      (0 < spectre.getD e 0 ∧ ∀ j, e < j → j < spectre.length → ¬ 0 < spectre.getD j 0) ∧
      (np_slice grid b e).min? = some wmin ∧
      (np_slice grid b e).max? = some wmax ∧
      wmin ≤ wmax := by
  obtain ⟨i, hilen, hipos⟩ := hpos
  have hmem : i ∈ positive_indices spectre := mem_positive_indices.mpr ⟨hilen, hipos⟩
  have hne : positive_indices spectre ≠ [] := by
    intro hn
    rw [hn] at hmem
    exact absurd hmem (List.not_mem_nil i)
  obtain ⟨b, hb⟩ := min?_isSome_of_ne_nil hne
  obtain ⟨e, he⟩ := max?_isSome_of_ne_nil hne
  have hbspec := min?_spec hb
  have hespec := max?_spec he
  have hbmem := mem_positive_indices.mp hbspec.1
  have hemem := mem_positive_indices.mp hespec.1
  have hble : b ≤ e := hbspec.2 e hespec.1
  have hegrid : e < grid.length := by rw [hlen]; exact hemem.1
  have hgrid2len : 0 < (np_slice grid b e).length := by
    simp only [np_slice, List.length_take, List.length_drop]
    omega
  have hgrid2ne : np_slice grid b e ≠ [] := List.ne_nil_of_length_pos hgrid2len
  obtain ⟨wmin, hwmin⟩ := min?_isSome_of_ne_nil hgrid2ne
  obtain ⟨wmax, hwmax⟩ := max?_isSome_of_ne_nil hgrid2ne
  have hwminspec := min?_spec hwmin
  have hwmaxspec := max?_spec hwmax
  refine ⟨b, e, wmin, wmax, ?_, ⟨hbmem.2, ?_⟩, ⟨hemem.2, ?_⟩, hwmin, hwmax, ?_⟩
  · simp [trim_and_bounds, np_min, np_max, hb, he, hwmin, hwmax, Bind.bind, Except.bind,
      Pure.pure, Except.pure]
  · intro j hj hjpos
    have : b ≤ j := hbspec.2 j (mem_positive_indices.mpr ⟨hj.trans hbmem.1, hjpos⟩)
    omega
  · intro j hej hjlen hjpos
    have : j ≤ e := hespec.2 j (mem_positive_indices.mpr ⟨hjlen, hjpos⟩)
    omega
  · exact hwminspec.2 wmax hwmaxspec.1

theorem trim_and_bounds_spec_witness :
    ∃ b e wmin wmax,
      trim_and_bounds [1, 2] [0, 3] =
        Except.ok (np_slice ([1, 2] : List ℚ) b e, np_slice ([0, 3] : List ℚ) b e, wmin, wmax) ∧
      (0 < List.getD ([0, 3] : List ℚ) b 0 ∧
        ∀ j, j < b → ¬ 0 < List.getD ([0, 3] : List ℚ) j 0) ∧
      (0 < List.getD ([0, 3] : List ℚ) e 0 ∧
        ∀ j, e < j → j < List.length ([0, 3] : List ℚ) →
          ¬ 0 < List.getD ([0, 3] : List ℚ) j 0) ∧
      (np_slice ([1, 2] : List ℚ) b e).min? = some wmin ∧
      (np_slice ([1, 2] : List ℚ) b e).max? = some wmax ∧
      wmin ≤ wmax :=
  trim_and_bounds_spec [1, 2] [0, 3] (by decide) ⟨1, by decide, by decide⟩

theorem trim_and_bounds_all_nonpositive_witness :
    trim_and_bounds [1, 2] [0, -1] =
      Except.error "zero-size array to reduction operation minimum which has no identity" :=
  trim_and_bounds_all_nonpositive [1, 2] [0, -1] (by decide)

/-- Lines 246–251: the old-style header-driven read of the proper-motion
components.  `header[... TEL TARG PMA] * 1000` and
`header[... TEL TARG PMD] * 1000` are read inside a single try block whose
bare except resets both components to zero, so a missing key for either
component yields `(0, 0)`. -/
def read_proper_motion (hpma hpmd : Option ℚ) : ℚ × ℚ :=
  match hpma, hpmd with
  | some a, some d => (a * 1000, d * 1000)
  | _, _ => (0, 0)

/-- C9: on the old-style header-driven path, a missing proper-motion key
(either one) makes both components zero together — never one present with
the other absent. -/
theorem read_proper_motion_missing (hpma hpmd : Option ℚ)
    (h : hpma = none ∨ hpmd = none) :
    read_proper_motion hpma hpmd = (0, 0) := by
  rcases h with h | h
  · subst h
    rfl
  · subst h
    cases hpma <;> rfl

theorem read_proper_motion_missing_witness :
    read_proper_motion none (some 5) = (0, 0) :=
  read_proper_motion_missing none (some 5) (Or.inl rfl)

/-- Lines 253–260: the secular radial-velocity acceleration.  Python's
`if plx_mas:` truthiness test is the nonzero test on the parallax. -/
noncomputable def acc_sec (plx_mas pma pmd : ℝ) : ℝ :=
  if plx_mas ≠ 0 then
    (1000.0 / plx_mas * 3.08567758e16) * 86400.0 *
      (Real.sqrt (pma ^ 2 + pmd ^ 2) * 2 * Real.pi /
        (360.0 * 1000.0 * 3600.0 * 86400.0 * 365.25)) ^ 2
  else 0

/-- C6: the secular acceleration is zero whenever the parallax is zero
(whatever the proper motion), and also zero at parallax 100 with both
proper-motion components zero. -/
theorem acc_sec_zero :
    (∀ pma pmd : ℝ, acc_sec 0 pma pmd = 0) ∧ acc_sec 100 0 0 = 0 := by
  constructor
  · intro pma pmd
    simp [acc_sec]
  · rw [acc_sec, if_pos (by norm_num)]
    rw [show (0 : ℝ) ^ 2 + 0 ^ 2 = 0 by norm_num, Real.sqrt_zero]
    ring

/-- The two fixed CORALIE calibration constants of lines 262–266: the
empirical multiplier applied below the mean-flux threshold, and the
SNR-matching divisor `1.4e10 / 125 ** 2`. -/
def coralie_flux_constant : ℚ := 400780143771.18976

/-- Second fixed constant: the SNR-matching divisor. -/
def coralie_snr_divisor : ℚ := 1.4e10 / 125 ^ 2

/-- `np.mean` of a flux array (division by zero yields 0 in `ℚ`; the code
only takes means of nonempty trimmed spectra). -/
def np_mean (l : List ℚ) : ℚ := l.sum / (l.length : ℚ)

/-- Lines 262–266: CORALIE flux recalibration.  Below a mean flux of
100000 the flux is multiplied by the empirical constant; in all CORALIE
cases it is divided by the SNR-matching divisor; other instruments are
untouched. -/
def flux_calibration (instrument : String) (spectre : List ℚ) : List ℚ :=
  if instrument = "CORALIE" then
    let spectre1 :=
      if np_mean spectre < 100000 then spectre.map (fun x => x * coralie_flux_constant)
      else spectre
    spectre1.map (fun x => x / coralie_snr_divisor)
  else spectre

theorem np_mean_map_mul (c : ℚ) (l : List ℚ) :
    np_mean (l.map (fun x => x * c)) = np_mean l * c := by
  unfold np_mean
  rw [List.length_map]
  rw [show (l.map (fun x => x * c)).sum = l.sum * c by
    induction l with
    | nil => simp
    | cons y ys ih => simp [ih, add_mul]]
  rw [mul_div_right_comm]

theorem np_mean_map_div (c : ℚ) (l : List ℚ) :
    np_mean (l.map (fun x => x / c)) = np_mean l / c := by
  have h : (fun x : ℚ => x / c) = fun x : ℚ => x * c⁻¹ := by
    funext x
    rw [div_eq_mul_inv]
  rw [h, np_mean_map_mul, ← div_eq_mul_inv]

/-- C7: flux recalibration applies only to CORALIE: the output mean scales
by (first constant / second constant) when the input mean is below 100000
and by (1 / second constant) otherwise; for every other instrument the flux
is returned unchanged. -/
theorem flux_calibration_spec (instrument : String) (spectre : List ℚ) :
    (instrument = "CORALIE" →
      np_mean (flux_calibration instrument spectre) =
        (if np_mean spectre < 100000 then
          np_mean spectre * (coralie_flux_constant / coralie_snr_divisor)
         else np_mean spectre * (1 / coralie_snr_divisor))) ∧
    (instrument ≠ "CORALIE" → flux_calibration instrument spectre = spectre) := by
  constructor
  · intro hc
    subst hc
    unfold flux_calibration
    rw [if_pos rfl]
    by_cases hm : np_mean spectre < 100000
    · rw [if_pos hm, if_pos hm, np_mean_map_div, np_mean_map_mul, mul_div_assoc]
    · rw [if_neg hm, if_neg hm, np_mean_map_div, mul_one_div]
  · intro hc
    unfold flux_calibration
    rw [if_neg hc]

theorem flux_calibration_spec_witness :
    np_mean (flux_calibration "CORALIE" [1]) =
      (if np_mean [1] < 100000 then
        np_mean [1] * (coralie_flux_constant / coralie_snr_divisor)
       else np_mean [1] * (1 / coralie_snr_divisor)) ∧
    flux_calibration "HARPS" [5] = [5] :=
  ⟨(flux_calibration_spec "CORALIE" [1]).1 rfl,
   (flux_calibration_spec "HARPS" [5]).2 (by decide)⟩

/-- One line of the output summary-table file: the header line or a data
row. -/
inductive Entry (β : Type) : Type
  | header : Entry β
  | row (r : β) : Entry β
deriving DecidableEq, Repr

/-- Observable effects of the table-append phase of `run`: taking the
`FileLock` on the sibling lock file, appending via `to_csv`, and releasing
the lock when the `with` block exits. -/
inductive Event : Type
  | acquireLock : Event
  | appendTable : Event
  | releaseLock : Event
deriving DecidableEq, Repr

/-- The event trace of a successful table-append phase. -/
def append_events : List Event := [Event.acquireLock, Event.appendTable, Event.releaseLock]

/-- `df.to_csv(output_table, header=not output_table.exists(), mode="a")`
on lines 398–404: `none` models a table file that does not yet exist, in
which case a header line is written first; otherwise the rows are appended
to the existing content with no header. -/
def to_csv_append {β : Type} (existing : Option (List (Entry β))) (rows : List β) :
    List (Entry β) :=
  match existing with
  | none => Entry.header :: rows.map Entry.row
  | some content => content ++ rows.map Entry.row

def is_header_entry {β : Type} : Entry β → Bool
  | Entry.header => true
  | Entry.row _ => false

def is_row_entry {β : Type} : Entry β → Bool
  | Entry.header => false
  | Entry.row _ => true

def count_headers {β : Type} (l : List (Entry β)) : ℕ := l.countP is_header_entry

def count_rows {β : Type} (l : List (Entry β)) : ℕ := l.countP is_row_entry

/-- `tyble[i]`: row lookup in the parsed input table, raising `IndexError`
out of range. -/
def table_get {α : Type} (table : List α) (i : ℕ) : Except String α :=
  match table[i]? with
  | some r => Except.ok r
  | none => Except.error "IndexError"

/-- The per-iteration instrument dispatch of `run` (lines 390–396):
ESPRESSO/EXPRESS raise `NotImplementedError`, the three supported
instruments delegate to the preprocessing of the row (abstracted here as
`process`, the I/O-performing `preprocess_fits_harps_coraline_harpn`), and
any other identifier raises
`ValueError(f"Instrument {t.instrument} not implemented")`. -/
def process_row {α β : Type} (instrument : String) (process : α → Except String β)
    (r : α) : Except String β :=
  if instrument = "ESPRESSO" ∨ instrument = "EXPRESS" then
    Except.error "NotImplementedError"
  else if instrument = "HARPS" ∨ instrument = "CORALIE" ∨ instrument = "HARPN" then
    process r
  else
    Except.error ("Instrument " ++ instrument ++ " not implemented")

/-- One iteration of the `for i in inputs` loop: fetch `r = tyble[i]`, then
dispatch on the instrument. -/
def process_index {α β : Type} (instrument : String) (process : α → Except String β)
    (table : List α) (i : ℕ) : Except String β := do
  let r ← table_get table i
  process_row instrument process r

/-- The whole loop of `run`: the summary rows are accumulated in order in
the in-memory list `rows1`; the first raised exception aborts the loop. -/
def process_all {α β : Type} (instrument : String) (process : α → Except String β)
    (table : List α) : List ℕ → Except String (List β)
  | [] => Except.ok []
  | i :: rest => do
    let b ← process_index instrument process table i
    let others ← process_all instrument process table rest
    pure (b :: others)

/-- `inputs = t.inputs; if not inputs: inputs = list(range(len(tyble)))`. -/
def expand_inputs (positional : List ℕ) (n : ℕ) : List ℕ :=
  if positional.isEmpty then List.range n else positional

/-- The driver `run` (lines 378–404), as a function of the already-parsed
input table and of the current content of the output-table file (`none` =
the file does not exist).  On success it yields the lock/append event
trace and the new file content; an `Except.error` result models an aborted
invocation in which the table-append phase was never reached, so the file
is untouched. -/
def run {α β : Type} (instrument : String) (process : α → Except String β)
    (positional : List ℕ) (table : List α) (file : Option (List (Entry β))) :
    Except String (List Event × List (Entry β)) :=
  match process_all instrument process table (expand_inputs positional table.length) with
  | Except.error e => Except.error e
  | Except.ok rows1 => Except.ok (append_events, to_csv_append file rows1)

theorem countP_row_map {β : Type} (rows : List β) :
    List.countP is_row_entry (rows.map Entry.row) = rows.length := by
  induction rows with
  | nil => rfl
  | cons x xs ih => simp [List.countP_cons, is_row_entry, ih]

theorem countP_header_map {β : Type} (rows : List β) :
    List.countP is_header_entry (rows.map Entry.row) = 0 := by
  induction rows with
  | nil => rfl
  | cons x xs ih => simp [List.countP_cons, is_header_entry, ih]

/-- C2: the append writes the header exactly when the table file did not
exist, appends rows otherwise, and two sequential invocations whose loops
produced the batches `b1` and `b2` against a fresh table path leave a table
with `b1.length + b2.length` rows and exactly one header line. -/
theorem table_append_spec {α β : Type} (instrument : String)
    (process : α → Except String β) (pos1 pos2 : List ℕ) (table : List α)
    (b1 b2 : List β)
    (h1 : process_all instrument process table (expand_inputs pos1 table.length) =
      Except.ok b1)
    (h2 : process_all instrument process table (expand_inputs pos2 table.length) =
      Except.ok b2) :
    (∀ rows : List β, to_csv_append none rows = Entry.header :: rows.map Entry.row) ∧
    (∀ (content : List (Entry β)) (rows : List β),
      to_csv_append (some content) rows = content ++ rows.map Entry.row) ∧
    ∃ f1 f2,
      run instrument process pos1 table none = Except.ok (append_events, f1) ∧
      run instrument process pos2 table (some f1) = Except.ok (append_events, f2) ∧
      count_rows f2 = b1.length + b2.length ∧
      count_headers f2 = 1 := by
  refine ⟨fun rows => rfl, fun content rows => rfl,
    to_csv_append none b1, to_csv_append (some (to_csv_append none b1)) b2,
    ?_, ?_, ?_, ?_⟩
  · simp [run, h1]
  · simp [run, h2]
  · show count_rows ((Entry.header :: b1.map Entry.row) ++ b2.map Entry.row) = _
    unfold count_rows
    rw [List.countP_append]
    have hcons : List.countP is_row_entry (Entry.header :: b1.map Entry.row) =
        List.countP is_row_entry (b1.map Entry.row) :=
      List.countP_cons_of_neg is_row_entry _ (fun h => Bool.noConfusion h)
    rw [hcons, countP_row_map, countP_row_map]
  · show count_headers ((Entry.header :: b1.map Entry.row) ++ b2.map Entry.row) = 1
    unfold count_headers
    rw [List.countP_append]
    have hcons : List.countP is_header_entry (Entry.header :: b1.map Entry.row) =
        List.countP is_header_entry (b1.map Entry.row) + 1 :=
      List.countP_cons_of_pos is_header_entry _ rfl
    rw [hcons, countP_header_map, countP_header_map]

theorem table_append_spec_witness :
    (∀ rows : List ℕ, to_csv_append none rows = Entry.header :: rows.map Entry.row) ∧
    (∀ (content : List (Entry ℕ)) (rows : List ℕ),
      to_csv_append (some content) rows = content ++ rows.map Entry.row) ∧
    ∃ f1 f2,
      run "HARPS" (fun r : ℕ => Except.ok r) [0] [10, 20] none =
        Except.ok (append_events, f1) ∧
      run "HARPS" (fun r : ℕ => Except.ok r) [1] [10, 20] (some f1) =
        Except.ok (append_events, f2) ∧
      count_rows f2 = List.length [10] + List.length [20] ∧
      count_headers f2 = 1 :=
  table_append_spec "HARPS" (fun r : ℕ => Except.ok r) [0] [1] [10, 20] [10] [20]
    rfl rfl

theorem process_all_error_of_mem {α β : Type} (instrument : String)
    (process : α → Except String β) (table : List α) {inputs : List ℕ} {i : ℕ}
    (hmem : i ∈ inputs) {e : String}
    (hfail : process_index instrument process table i = Except.error e) :
    ∃ e2, process_all instrument process table inputs = Except.error e2 := by
  induction inputs with
  | nil => exact absurd hmem (List.not_mem_nil i)
  | cons j rest ih =>
    cases hj : process_index instrument process table j with
    | error e3 => exact ⟨e3, by simp [process_all, hj, Bind.bind, Except.bind]⟩
    | ok b =>
      rcases List.mem_cons.mp hmem with h | h
      · subst h
        rw [hj] at hfail
        exact absurd hfail (by simp)
      · obtain ⟨e2, he2⟩ := ih h
        exact ⟨e2, by simp [process_all, hj, he2, Bind.bind, Except.bind]⟩

/-- C3: if processing any single selected observation raises, the whole
invocation aborts with that loop's first error before the table-append
phase: the rows are accumulated in memory across the entire loop, so a
mid-batch failure appends zero rows (an `Except.error` result of `run`
leaves the table file untouched). -/
theorem run_aborts_on_failure {α β : Type} (instrument : String)
    (process : α → Except String β) (positional : List ℕ) (table : List α)
    (file : Option (List (Entry β)))
    (h : ∃ i ∈ expand_inputs positional table.length, ∃ e,
      process_index instrument process table i = Except.error e) :
    ∃ e2, run instrument process positional table file = Except.error e2 := by
  obtain ⟨i, hmem, e, hfail⟩ := h
  obtain ⟨e2, he2⟩ := process_all_error_of_mem instrument process table hmem hfail
  exact ⟨e2, by simp [run, he2]⟩

theorem run_aborts_on_failure_witness :
    ∃ e2, run "HARPS" (fun _ : ℕ => (Except.error "boom" : Except String ℕ))
      [] [0] none = Except.error e2 :=
  run_aborts_on_failure "HARPS" (fun _ : ℕ => (Except.error "boom" : Except String ℕ))
    [] [0] none ⟨0, by decide, "boom", rfl⟩

/-- C8 counterexample: with the unknown instrument identifier `"TOTO"`, an
empty positional selection and an empty input table, `run` raises no error
at all — it performs the table append and returns successfully — so an
unknown instrument identifier does not always cause a configuration
error. -/
theorem run_unknown_instrument_counterexample :
    run "TOTO" (fun r : ℕ => Except.ok r) [] ([] : List ℕ) none =
      Except.ok (append_events, [Entry.header]) :=
  rfl

/-- C8 (amended): when the expanded index selection is nonempty and its
first index is within the table, an unknown/unsupported instrument
identifier makes `run` fail with the explicit configuration error
`Instrument ... not implemented`, and ESPRESSO/EXPRESS make it fail with
`NotImplementedError`; in both cases the failure happens before any
observation is processed (the conclusion holds for every `process`) and
before the table append. -/
theorem run_instrument_errors {α β : Type} (instrument : String)
    (process : α → Except String β) (positional : List ℕ) (table : List α)
    (file : Option (List (Entry β))) (i : ℕ) (rest : List ℕ)
    (hexp : expand_inputs positional table.length = i :: rest)
    (hi : i < table.length) :
    (instrument ∉ (["ESPRESSO", "EXPRESS", "HARPS", "CORALIE", "HARPN"] : List String) →
      run instrument process positional table file =
        Except.error ("Instrument " ++ instrument ++ " not implemented")) ∧
    ((instrument = "ESPRESSO" ∨ instrument = "EXPRESS") →
      run instrument process positional table file =
        Except.error "NotImplementedError") := by
  have hget : table_get table i = Except.ok (table.get (Fin.mk i hi)) := by
    simp [table_get, List.getElem?_eq_getElem hi]
  constructor
  · intro hn
    simp only [List.mem_cons, List.not_mem_nil, or_false, not_or] at hn
    obtain ⟨hn1, hn2, hn3, hn4, hn5⟩ := hn
    have hpi : process_index instrument process table i =
        Except.error ("Instrument " ++ instrument ++ " not implemented") := by
      unfold process_index
      rw [hget]
      show process_row instrument process (table.get (Fin.mk i hi)) = _
      unfold process_row
      rw [if_neg (by tauto), if_neg (by tauto)]
    have hall : process_all instrument process table
        (expand_inputs positional table.length) =
        Except.error ("Instrument " ++ instrument ++ " not implemented") := by
      rw [hexp]
      simp [process_all, hpi, Bind.bind, Except.bind]
    simp [run, hall]
  · intro hor
    have hpi : process_index instrument process table i =
        Except.error "NotImplementedError" := by
      unfold process_index
      rw [hget]
      show process_row instrument process (table.get (Fin.mk i hi)) = _
      unfold process_row
      rw [if_pos hor]
    have hall : process_all instrument process table
        (expand_inputs positional table.length) =
        Except.error "NotImplementedError" := by
      rw [hexp]
      simp [process_all, hpi, Bind.bind, Except.bind]
    simp [run, hall]

theorem run_instrument_errors_witness :
    run "TOTO" (fun r : ℕ => Except.ok r) [0] [5] none =
      Except.error ("Instrument " ++ "TOTO" ++ " not implemented") ∧
    run "ESPRESSO" (fun r : ℕ => Except.ok r) [0] [5] none =
      Except.error "NotImplementedError" :=
  ⟨(run_instrument_errors "TOTO" (fun r : ℕ => Except.ok r) [0] [5] none 0 []
      (by decide) (by decide)).1 (by decide),
   (run_instrument_errors "ESPRESSO" (fun r : ℕ => Except.ok r) [0] [5] none 0 []
      (by decide) (by decide)).2 (Or.inl rfl)⟩

/-- C10: with no positional indices and a zero-row input table the expanded
selection is empty, so `run` performs no per-observation processing and
never inspects the instrument identifier (the result is the same for every
`instrument` and every `process`), yet it still takes the lock and appends:
against a non-existing table file it creates a header-only table. -/
theorem run_empty_selection {α β : Type} (instrument : String)
    (process : α → Except String β) (file : Option (List (Entry β))) :
    run instrument process [] ([] : List α) file =
      Except.ok (append_events, to_csv_append file []) ∧
    run instrument process [] ([] : List α) none =
      Except.ok (append_events, [Entry.header]) :=
  ⟨rfl, rfl⟩

end Rassine
